import Mathlib

/-!
Verification of the multipolygon area assembly core of libosmium.

The development shallowly embeds the code of the repository:

* `object_id_to_area_id`, `area_id_to_object_id`, `Area.from_way`
  (osm/area.hpp);
* `TagMatcher` (tags/matcher.hpp);
* `MultipolygonManager` with `keep_relation`, `assemble_way`,
  `complete_relation`, `remove_members`, `relation` (pass 1) and
  `member_way` (pass 2) (area/multipolygon_manager.hpp).

Auxiliary collaborators whose sources are not part of the repository
snapshot (the tag list helpers, the members and relations databases, the
assembler) are modelled from the specification, as marked in their doc
comments.  Machine integers are modelled as unbounded `Int`; the range
hypotheses of the id-bijection theorems record the C++ int64 bounds.
-/

/-- OSM item types (osm/item_type.hpp); only the constructors the manager
distinguishes are modelled. -/
inductive item_type where
  | node
  | way
  | relation
deriving DecidableEq

/-- A location: integer latitude/longitude as stored by osmium.  An
invalid (undefined) location is modelled as `Option.none` at the use
sites. -/
structure Location where
  x : Int
  y : Int
deriving DecidableEq

/-- A node reference inside a way: node id plus optional location. -/
structure NodeRef where
  ref : Int
  location : Option Location
deriving DecidableEq

/-- A tag is a key/value pair of strings. -/
abbrev Tag := String × String

/-- A way: id, ordered node references, tags. -/
structure Way where
  id : Int
  nodes : List NodeRef
  tags : List Tag
deriving DecidableEq

/-- A member of a relation: type, id (called ref in osmium) and role. -/
structure RelationMember where
  type : item_type
  ref : Int
  role : String
deriving DecidableEq

/-- A relation: id, ordered members, tags. -/
structure Relation where
  id : Int
  members : List RelationMember
  tags : List Tag
deriving DecidableEq

/-- Modelled from the spec: the user-supplied TagsFilter
(tags/tags_filter.hpp, not in the snapshot) is a predicate on a single
tag; section 4.4 of the spec describes it as a tag matcher applied per
tag. -/
abbrev TagsFilter := Tag → Bool

/-- Modelled from the spec: `osmium::tags::match_any_of`
(tags/taglist.hpp, not in the snapshot) returns true if any tag of the
list matches the filter. -/
def match_any_of (tags : List Tag) (f : TagsFilter) : Bool :=
  tags.any f

/-- Modelled from the spec: `osmium::tags::match_none_of`
(tags/taglist.hpp, not in the snapshot) returns true if no tag of the
list matches the filter. -/
def match_none_of (tags : List Tag) (f : TagsFilter) : Bool :=
  !(tags.any f)

/-- Modelled from the spec: `TagList::get_value_by_key` (osm/tag.hpp,
not in the snapshot) returns the value of the first tag carrying the
given key, and null (here `none`) when there is no such tag. -/
def get_value_by_key (tags : List Tag) (key : String) : Option String :=
  match tags.find? (fun t => t.1 == key) with
  | some t => some t.2
  | none => none

/-- Modelled from the spec: `TagList::has_tag` (osm/tag.hpp, not in the
snapshot) checks whether the list carries the given key with exactly the
given value. -/
def has_tag (tags : List Tag) (key value : String) : Bool :=
  match get_value_by_key tags key with
  | some v => v == value
  | none => false

/-! ## TagMatcher (tags/matcher.hpp) -/

/-- `osmium::TagMatcher`: a key string matcher, a value string matcher
and the stored result flag `m_result` (the negation of the invert flag).
The `StringMatcher` collaborators are modelled as abstract predicates on
strings. -/
structure TagMatcher where
  m_key_matcher : String → Bool
  m_value_matcher : String → Bool
  m_result : Bool

/-- The default constructor `TagMatcher()`: both string matchers are
`always_false`; the member initializer leaves `m_result` at `true`. -/
def TagMatcher.mkDefault : TagMatcher :=
  { m_key_matcher := fun _ => false
    m_value_matcher := fun _ => false
    m_result := true }

/-- The three-argument constructor
`TagMatcher(key_matcher, value_matcher, invert)`: stores both matchers
and sets `m_result` to the negation of `invert`. -/
def TagMatcher.make (key_matcher value_matcher : String → Bool)
    (invert : Bool) : TagMatcher :=
  { m_key_matcher := key_matcher
    m_value_matcher := value_matcher
    m_result := !invert }

/-- `TagMatcher::operator()(const char* key, const char* value)`. -/
def TagMatcher.matches (m : TagMatcher) (key value : String) : Bool :=
  m.m_key_matcher key && (m.m_value_matcher value == m.m_result)

/-- `TagMatcher::operator()(const osmium::Tag&)`. -/
def TagMatcher.matchesTag (m : TagMatcher) (t : Tag) : Bool :=
  m.matches t.1 t.2

/-- `TagMatcher::operator()(const osmium::TagList&)`: true if any tag of
the list matches (the source loop returns at the first match). -/
def TagMatcher.matchesList (m : TagMatcher) (tags : List Tag) : Bool :=
  tags.any m.matchesTag

/-! ## Area ids (osm/area.hpp) -/

/-- `osmium::object_id_to_area_id` (osm/area.hpp lines 107-113):
double the absolute id, add one for relations, and restore the sign. -/
def object_id_to_area_id (id : Int) (type : item_type) : Int :=
  let a1 : Int := |id| * 2
  let area_id : Int := if type = item_type.relation then a1 + 1 else a1
  if id < 0 then -area_id else area_id

/-- `osmium::area_id_to_object_id` (osm/area.hpp lines 121-123): the C++
division `id / 2` truncates toward zero, which is `Int.tdiv`. -/
def area_id_to_object_id (id : Int) : Int :=
  id.tdiv 2

/-- An `osmium::Area`; of its binary layout only the id is relevant to
the claims. -/
structure Area where
  id : Int
deriving DecidableEq

/-- `OSMObject::positive_id`: the absolute value of the id. -/
def Area.positive_id (a : Area) : Nat :=
  a.id.natAbs

/-- `Area::from_way` (osm/area.hpp lines 151-153): true when the least
significant bit of the positive id is clear. -/
def Area.from_way (a : Area) : Bool :=
  a.positive_id % 2 == 0

/-! ## Area statistics and the assembler collaborator -/

/-- Modelled from the spec: the `area_stats` aggregate (area/stats.hpp,
not in the snapshot) holds additive counters; areas built, rings built
and invalid-location failures are the ones relevant here. -/
structure area_stats where
  areas_built : Nat
  rings_built : Nat
  invalid_locations : Nat
deriving DecidableEq

/-- Pointwise addition of statistics (the source `operator+=`). -/
def area_stats.add (a b : area_stats) : area_stats :=
  { areas_built := a.areas_built + b.areas_built
    rings_built := a.rings_built + b.rings_built
    invalid_locations := a.invalid_locations + b.invalid_locations }

instance : Add area_stats := ⟨area_stats.add⟩

/-- The all-zero statistics. -/
def area_stats.zero : area_stats := ⟨0, 0, 0⟩

/-- Exceptions relevant to the manager: `osmium::invalid_location` is
the one kind it catches; every other exception is collapsed into
`other`. -/
inductive AsmError where
  | invalid_location
  | other
deriving DecidableEq

/-- Modelled from the spec: the pluggable assembler collaborator
(section 4.5).  Each call shape either emits areas into the output
buffer and reports statistics, or throws. -/
structure Assembler where
  run_way : Way → Except AsmError (List Area × area_stats)
  run_rel : Relation → List Way → Except AsmError (List Area × area_stats)

/-- The area emitted for a closed way, with the bijective id of
section 6 of the spec. -/
def way_area (w : Way) : Area :=
  ⟨object_id_to_area_id w.id item_type.way⟩

/-- The area emitted for a completed relation, with the bijective id of
section 6 of the spec. -/
def rel_area (r : Relation) : Area :=
  ⟨object_id_to_area_id r.id item_type.relation⟩

/-- The statistics one successful assembly reports. -/
def one_area_stat : area_stats := ⟨1, 1, 0⟩

/-- Modelled from the spec: an assembler instance for which ring
assembly always succeeds, emitting one area whose id is derived by the
bijection of section 6.  Used to observe when the manager invokes the
assembler. -/
def probe_assembler : Assembler :=
  { run_way := fun w => .ok ([way_area w], one_area_stat)
    run_rel := fun r _ => .ok ([rel_area r], one_area_stat) }

/-- Modelled from the spec: an assembler instance whose assembly always
fails with `invalid_location` (missing node coordinates, section 7). -/
def invalid_location_assembler : Assembler :=
  { run_way := fun _ => .error .invalid_location
    run_rel := fun _ _ => .error .invalid_location }

/-! ## MultipolygonManager (area/multipolygon_manager.hpp) -/

/-- The location of the first node of a way (`way.nodes().front()`). -/
def front_location (w : Way) : Option Location :=
  match w.nodes with
  | [] => none
  | n :: _ => n.location

/-- The location of the last node of a way (`way.nodes().back()`). -/
def back_location (w : Way) : Option Location :=
  match w.nodes.getLast? with
  | some n => n.location
  | none => none

/-- Modelled from the spec: `Way::ends_have_same_location` (osm/way.hpp,
not in the snapshot); a way is closed iff front location equals back
location bit-exactly (section 3 of the spec). -/
def ends_have_same_location (w : Way) : Bool :=
  front_location w == back_location w

/-- The part of the manager state the assembler paths touch: the output
buffer (kept as the list of emitted areas, in emission order) and the
aggregated statistics. -/
structure MState where
  output : List Area
  stats : area_stats
deriving DecidableEq

/-- One interest record of the members database: a way id, the handle of
the interested relation and the member slot index. -/
structure MemberInterest where
  way_id : Int
  rel_handle : Nat
  slot : Nat
deriving DecidableEq

/-- Modelled from the spec: the MembersDatabase (section 4.2, source
relations/members_database.hpp not in the snapshot): the registered
interests plus the stashed way payloads. -/
structure MembersDatabase where
  interests : List MemberInterest
  ways : List (Int × Way)
deriving DecidableEq

/-- Modelled from the spec: `MembersDatabase::get` fetches the stored
way payload for an id (undefined when absent; a dummy way stands in for
the undefined case). -/
def MembersDatabase.getWay (db : MembersDatabase) (id : Int) : Way :=
  match db.ways.find? (fun p => p.1 == id) with
  | some p => p.2
  | none => ⟨0, [], []⟩

/-- The full pass-2 state of the manager: the relations database (a
released handle becomes `none`), the members database, and the output
and statistics. -/
structure Pass2State where
  relations : List (Option Relation)
  db : MembersDatabase
  output : List Area
  stats : area_stats
deriving DecidableEq

/-- The id of the relation a handle refers to (0 for a dead handle;
only live handles are ever consulted). -/
def relation_id_of (rels : List (Option Relation)) (h : Nat) : Int :=
  match rels.get? h with
  | some (some r) => r.id
  | _ => 0

/-- Modelled from the spec: `MembersDatabase::remove(way_id,
relation_id)` (section 4.2) removes every interest matching both ids. -/
def MembersDatabase.removeInterest (db : MembersDatabase)
    (rels : List (Option Relation)) (way_id rel_id : Int) : MembersDatabase :=
  { db with interests := db.interests.filter (fun i =>
      !(i.way_id == way_id && relation_id_of rels i.rel_handle == rel_id)) }

namespace MultipolygonManager

/-- `MultipolygonManager::keep_relation` (lines 116-131): the relation
must carry a type tag of value multipolygon or boundary, its tag list
must match the filter, and it must have at least one way member. -/
def keep_relation (filter : TagsFilter) (r : Relation) : Bool :=
  match get_value_by_key r.tags "type" with
  | none => false
  | some t =>
    if (t == "multipolygon" || t == "boundary") && match_any_of r.tags filter then
      r.members.any (fun m => m.type == item_type.way)
    else
      false

/-- `MultipolygonManager::assemble_way` (lines 133-160): ways of at most
3 nodes are dropped; a missing front or back location throws
`invalid_location` which the enclosing catch swallows; a closed way not
tagged area=no whose tags match the filter is handed to the assembler,
whose emissions and statistics are appended; an `invalid_location`
escaping the assembler is swallowed as well. -/
def assemble_way (asm : Assembler) (filter : TagsFilter) (way : Way)
    (st : MState) : Except AsmError MState :=
  if way.nodes.length ≤ 3 then
    .ok st
  else
    let body : Except AsmError MState :=
      if (front_location way).isNone || (back_location way).isNone then
        .error .invalid_location
      else if ends_have_same_location way then
        if has_tag way.tags "area" "no" then
          .ok st
        else if match_none_of way.tags filter then
          .ok st
        else
          match asm.run_way way with
          | .ok (areas, s) => .ok ⟨st.output ++ areas, st.stats + s⟩
          | .error e => .error e
      else
        .ok st
    match body with
    | .error .invalid_location => .ok st
    | r => r

/-- `MultipolygonManager::complete_relation` (lines 167-184): gather the
stored way payloads of the members with non-zero id, in slot order, and
run the relation assembler; `invalid_location` is swallowed, everything
else propagates. -/
def complete_relation (asm : Assembler) (db : MembersDatabase)
    (rel : Relation) (st : MState) : Except AsmError MState :=
  let ways : List Way :=
    (rel.members.filter (fun m => m.ref != 0)).map (fun m => db.getWay m.ref)
  match asm.run_rel rel ways with
  | .ok (areas, s) => .ok ⟨st.output ++ areas, st.stats + s⟩
  | .error .invalid_location => .ok st
  | .error e => .error e

/-- `MultipolygonManager::remove_members` (lines 103-110): for every
member with non-zero id, remove the interests matching the member id and
the relation id from the members database. -/
def remove_members (rels : List (Option Relation)) (db : MembersDatabase)
    (rel : Relation) : MembersDatabase :=
  rel.members.foldl
    (fun acc m => if m.ref != 0 then acc.removeInterest rels m.ref rel.id else acc)
    db

/-- The completion closure the manager passes to `MembersDatabase::add`
(lines 270-274): build the area from the relation behind the handle,
defensively drop the remaining interests of that relation, and release
the handle. -/
def on_complete (asm : Assembler) (h : Nat) (st : Pass2State) :
    Except AsmError Pass2State :=
  match st.relations.get? h with
  | some (some rel) =>
    match complete_relation asm st.db rel ⟨st.output, st.stats⟩ with
    | .error e => .error e
    | .ok m =>
      .ok ⟨st.relations.set h none,
           remove_members st.relations st.db rel,
           m.output, m.stats⟩
  | _ => .ok st

/-- Modelled from the spec: `MembersDatabase::add(way, on_complete)`
(section 4.2): when no interest matches the way id the way is discarded;
otherwise the way is stashed once, the matching interests are erased and
every relation whose last outstanding interest was just satisfied fires
its completion callback, in interest-registration order. -/
def members_db_add (asm : Assembler) (way : Way) (st : Pass2State) :
    Except AsmError Pass2State :=
  let matching := st.db.interests.filter (fun i => i.way_id == way.id)
  if matching.isEmpty then
    .ok st
  else
    let db1 : MembersDatabase :=
      ⟨st.db.interests.filter (fun i => i.way_id != way.id),
       st.db.ways ++ [(way.id, way)]⟩
    let completed : List Nat :=
      (matching.map (fun i => i.rel_handle)).foldl
        (fun acc h =>
          if acc.contains h then acc
          else if db1.interests.all (fun i => i.rel_handle ≠ h) then acc ++ [h]
          else acc)
        []
    completed.foldlM (fun s h => on_complete asm h s) { st with db := db1 }

/-- `MultipolygonManager::member_way` (lines 269-276): offer the way to
the members database (firing completion callbacks), then independently
attempt closed-way assembly. -/
def member_way (asm : Assembler) (filter : TagsFilter) (way : Way)
    (st : Pass2State) : Except AsmError Pass2State :=
  match members_db_add asm way st with
  | .error e => .error e
  | .ok st1 =>
    match assemble_way asm filter way ⟨st1.output, st1.stats⟩ with
    | .error e => .error e
    | .ok m => .ok { st1 with output := m.output, stats := m.stats }

/-- The pass-1 state: the relations database (in insertion order, so a
handle is a list index) and the registered interests. -/
structure Pass1State where
  relations : List Relation
  interests : List MemberInterest
deriving DecidableEq

/-- `MultipolygonManager::relation` (lines 239-253): a kept relation is
added to the relations database; one walk over the stored members with a
running slot counter tracks an interest for every way member and zeroes
the id of every other member. -/
def relation (filter : TagsFilter) (r : Relation) (st : Pass1State) :
    Pass1State :=
  if keep_relation filter r then
    let h := st.relations.length
    let res :=
      r.members.foldl
        (fun (acc : List RelationMember × List MemberInterest × Nat) m =>
          if m.type == item_type.way then
            (acc.1 ++ [m], acc.2.1 ++ [⟨m.ref, h, acc.2.2⟩], acc.2.2 + 1)
          else
            (acc.1 ++ [{ m with ref := 0 }], acc.2.1, acc.2.2 + 1))
        ([], [], 0)
    ⟨st.relations ++ [{ r with members := res.1 }], st.interests ++ res.2.1⟩
  else
    st

end MultipolygonManager

/-! ## Concrete inputs used by witnesses and counterexamples -/

/-- The filter that lets every tag through (the manager default
`TagsFilter{true}`). -/
def true_filter : TagsFilter := fun _ => true

/-- Scenario 1 of the spec: the closed square way id 42 would be the
classic example; here the way carries id 5 so it can double as the
member of the demo relation. -/
def demo_way : Way :=
  ⟨5,
   [⟨1, some ⟨0, 0⟩⟩, ⟨2, some ⟨1, 0⟩⟩, ⟨3, some ⟨1, 1⟩⟩,
    ⟨4, some ⟨0, 1⟩⟩, ⟨1, some ⟨0, 0⟩⟩],
   [("building", "yes")]⟩

/-- A multipolygon relation citing the demo way as its only member. -/
def demo_relation : Relation :=
  ⟨7, [⟨item_type.way, 5, "outer"⟩], [("type", "multipolygon")]⟩

/-- The pass-1 state after the demo relation was offered to the
manager. -/
def demo_pass1 : MultipolygonManager.Pass1State :=
  MultipolygonManager.relation true_filter demo_relation ⟨[], []⟩

/-- The pass-2 state at the start of the second pass: every kept
relation is live and the registered interests are in place. -/
def demo_pass2_init : Pass2State :=
  ⟨demo_pass1.relations.map some, ⟨demo_pass1.interests, []⟩, [],
   area_stats.zero⟩

/-- Scenario 3 of the spec: a closed filter-matched way carrying
area=no. -/
def area_no_way : Way :=
  ⟨6,
   [⟨1, some ⟨0, 0⟩⟩, ⟨2, some ⟨1, 0⟩⟩, ⟨3, some ⟨1, 1⟩⟩,
    ⟨4, some ⟨0, 1⟩⟩, ⟨1, some ⟨0, 0⟩⟩],
   [("landuse", "forest"), ("area", "no")]⟩

/-- The claim-side keep decision, following the claim wording: a type
tag of value multipolygon or boundary, and the tags other than the type
tag satisfy the filter; no further condition. -/
def keep_relation_claim (f : TagsFilter) (r : Relation) : Bool :=
  (match get_value_by_key r.tags "type" with
   | some v => v == "multipolygon" || v == "boundary"
   | none => false)
  && match_any_of (r.tags.filter (fun t => t.1 != "type")) f

/-- A multipolygon relation with a filter-matched tag but no way
member. -/
def cex_rel_a : Relation :=
  ⟨7, [], [("type", "multipolygon"), ("building", "yes")]⟩

/-- A filter matching the building key. -/
def cex_filter_a : TagsFilter := fun t => t.1 == "building"

/-- A boundary relation whose only tag is the type tag, with one way
member. -/
def cex_rel_b : Relation :=
  ⟨8, [⟨item_type.way, 5, "outer"⟩], [("type", "boundary")]⟩

/-- A filter matching the type key. -/
def cex_filter_b : TagsFilter := fun t => t.1 == "type"

/-- The claim-side invocation condition for closed-way assembly,
following the C2 claim wording: at least 4 node refs, front and back
locations present and bit-equal, not tagged area=no, and some tag
matching the filter. -/
def closed_way_assembly_condition (f : TagsFilter) (w : Way) : Bool :=
  decide (4 ≤ w.nodes.length)
  && (front_location w).isSome
  && (back_location w).isSome
  && decide (front_location w = back_location w)
  && !(has_tag w.tags "area" "no")
  && match_any_of w.tags f

/-- The pass-2 state right before the completion of the demo relation
fires: the relation is live, its interests are already consumed, and the
demo way payload is stashed. -/
def demo_completion_state : Pass2State :=
  ⟨[some demo_relation], ⟨[], [(5, demo_way)]⟩, [], area_stats.zero⟩

/-- The pass-2 state after the demo way was delivered: the relation
handle is released, the way is stashed, and two areas were emitted, the
relation area before the closed-way area. -/
def demo_member_way_result : Pass2State :=
  ⟨[none], ⟨[], [(5, demo_way)]⟩,
   [rel_area demo_relation, way_area demo_way], ⟨2, 2, 0⟩⟩

/-! ## Theorems -/

/-- A manager state never equals the same state with one more emitted
area. -/
theorem mstate_ne_append (st : MState) (a : Area) (s : area_stats) :
    ¬(st = ⟨st.output ++ [a], st.stats + s⟩) := by
  intro h
  have h2 := congrArg (fun x => x.output.length) h
  simp at h2

/-- Truncating division by two of a nonnegative double plus zero or
one. -/
theorem tdiv_two_mul_add (a b : Int) (hb : b = 0 ∨ b = 1) (ha : 0 ≤ a) :
    (a * 2 + b).tdiv 2 = a := by
  have h2 : (0 : Int) ≤ 2 := by norm_num
  have hx : (0 : Int) ≤ a * 2 + b := by rcases hb with rfl | rfl <;> omega
  rw [Int.tdiv_eq_ediv hx h2]
  rcases hb with rfl | rfl <;> omega

/-- Truncating division by two of the negation of a nonnegative double
plus zero or one. -/
theorem tdiv_two_mul_add_neg (a b : Int) (hb : b = 0 ∨ b = 1) (ha : 0 ≤ a) :
    (-(a * 2 + b)).tdiv 2 = -a := by
  rw [Int.neg_tdiv, tdiv_two_mul_add a b hb ha]

/-- C3: for every signed object id in range and type way or relation,
`area_id_to_object_id` inverts `object_id_to_area_id`: the area id is
twice the absolute object id plus the relation bit carrying the object
sign, and truncating division by two recovers the object id. -/
theorem area_id_roundtrip (id : Int) (t : item_type)
    (_h : id.natAbs ≤ 2 ^ 62 - 1) :
    area_id_to_object_id (object_id_to_area_id id t) = id := by
  unfold object_id_to_area_id area_id_to_object_id
  obtain ⟨n, rfl | rfl⟩ := Int.eq_nat_or_neg id
  · have habs : |(n : Int)| = (n : Int) := abs_of_nonneg (Int.natCast_nonneg n)
    have hlt : ¬((n : Int) < 0) := Int.not_lt.mpr (Int.natCast_nonneg n)
    cases t <;>
      simp only [habs, if_pos, if_neg hlt, hlt] <;>
      first
        | exact tdiv_two_mul_add _ 1 (Or.inr rfl) (Int.natCast_nonneg n)
        | exact tdiv_two_mul_add _ 0 (Or.inl rfl) (Int.natCast_nonneg n)
  · have habs : |(-(n : Int))| = (n : Int) := by
      rw [abs_neg, abs_of_nonneg (Int.natCast_nonneg n)]
    by_cases hn : (-(n : Int)) < 0
    · cases t <;>
        simp only [habs, if_pos hn, if_neg, hn] <;>
        first
          | exact tdiv_two_mul_add_neg _ 1 (Or.inr rfl) (Int.natCast_nonneg n)
          | exact tdiv_two_mul_add_neg _ 0 (Or.inl rfl) (Int.natCast_nonneg n)
    · have h0 : (n : Int) = 0 := by omega
      cases t <;> (simp [habs, h0, hn]; try rfl)

/-- Witness for C3: the id bijection round-trips on the in-range
relation id -7. -/
theorem area_id_roundtrip_witness :
    ((-7 : Int).natAbs ≤ 2 ^ 62 - 1)
    ∧ area_id_to_object_id (object_id_to_area_id (-7) item_type.relation) = -7 :=
  ⟨by decide, area_id_roundtrip (-7) item_type.relation (by decide)⟩

/-- C8: for every in-range object id, the area made from the way-derived
area id satisfies `from_way`, and the area made from the
relation-derived area id does not: the relation bit is the least
significant bit of the positive area id. -/
theorem from_way_of_area_id (id : Int) (_h : id.natAbs ≤ 2 ^ 62 - 1) :
    (Area.mk (object_id_to_area_id id item_type.way)).from_way = true ∧
    (Area.mk (object_id_to_area_id id item_type.relation)).from_way = false := by
  unfold Area.from_way Area.positive_id object_id_to_area_id
  have key : ∀ m : Int, ((if id < 0 then -m else m).natAbs) = m.natAbs := by
    intro m
    by_cases hid : id < 0 <;> simp [hid, Int.natAbs_neg]
  have cast1 : ((id.natAbs : Int) * 2) = ((id.natAbs * 2 : Nat) : Int) := by
    push_cast
    ring
  have cast2 : ((id.natAbs : Int) * 2 + 1) = ((id.natAbs * 2 + 1 : Nat) : Int) := by
    push_cast
    ring
  constructor
  · dsimp only
    rw [if_neg (by decide : ¬(item_type.way = item_type.relation))]
    simp only [key, Int.abs_eq_natAbs, cast1, Int.natAbs_cast, beq_iff_eq]
    omega
  · dsimp only
    rw [if_pos (rfl : item_type.relation = item_type.relation)]
    simp only [key, Int.abs_eq_natAbs, cast2, Int.natAbs_cast,
      beq_eq_false_iff_ne, ne_eq]
    omega

/-- Witness for C8: object id -7 gives an even-magnitude area id as a
way and an odd-magnitude area id as a relation. -/
theorem from_way_of_area_id_witness :
    ((-7 : Int).natAbs ≤ 2 ^ 62 - 1)
    ∧ ((Area.mk (object_id_to_area_id (-7) item_type.way)).from_way = true
       ∧ (Area.mk (object_id_to_area_id (-7) item_type.relation)).from_way = false) :=
  ⟨by decide, from_way_of_area_id (-7) (by decide)⟩

/-- C9: a keyed TagMatcher built from key matcher, value matcher and
invert flag accepts a key/value pair exactly when the key matcher holds
and the value matcher result xor the invert flag holds; on a whole tag
list it returns true exactly when some tag is accepted. -/
theorem tag_matcher_spec (k v : String → Bool) (invert : Bool)
    (key value : String) (tags : List Tag) :
    ((TagMatcher.make k v invert).matches key value
        = (k key && (xor (v value) invert)))
    ∧ ((TagMatcher.make k v invert).matchesList tags = true
        ↔ ∃ t ∈ tags, (TagMatcher.make k v invert).matchesTag t = true) := by
  constructor
  · simp only [TagMatcher.make, TagMatcher.matches]
    cases v value <;> cases invert <;> simp
  · simp [TagMatcher.matchesList, List.any_eq_true]

/-- C10: a default-constructed TagMatcher rejects every key/value pair
and every tag list, because both of its string matchers are
always-false. -/
theorem default_tag_matcher_matches_nothing (key value : String)
    (tags : List Tag) :
    TagMatcher.mkDefault.matches key value = false
    ∧ TagMatcher.mkDefault.matchesList tags = false := by
  constructor
  · rfl
  · simp [TagMatcher.matchesList, TagMatcher.matchesTag, TagMatcher.matches,
      TagMatcher.mkDefault]

/-- Counterexample for C1: relation `cex_rel_a` satisfies the claimed
keep condition yet `keep_relation` rejects it (it has no way member),
and relation `cex_rel_b` fails the claimed condition (its tags minus the
type tag match nothing) yet `keep_relation` keeps it (the source applies
the filter to all tags, type tag included). -/
theorem keep_relation_cex :
    (keep_relation_claim cex_filter_a cex_rel_a = true
     ∧ MultipolygonManager.keep_relation cex_filter_a cex_rel_a = false)
    ∧ (keep_relation_claim cex_filter_b cex_rel_b = false
       ∧ MultipolygonManager.keep_relation cex_filter_b cex_rel_b = true) :=
  ⟨⟨rfl, rfl⟩, ⟨rfl, rfl⟩⟩

/-- C1 (amended): `keep_relation` returns true exactly when the relation
carries a type tag of value multipolygon or boundary, its full tag list
(type tag included) satisfies the filter, and at least one member has
type way. -/
theorem keep_relation_amended (f : TagsFilter) (r : Relation) :
    MultipolygonManager.keep_relation f r = true ↔
      ((∃ v, get_value_by_key r.tags "type" = some v
             ∧ (v = "multipolygon" ∨ v = "boundary"))
       ∧ match_any_of r.tags f = true
       ∧ r.members.any (fun m => m.type == item_type.way) = true) := by
  unfold MultipolygonManager.keep_relation
  cases hv : get_value_by_key r.tags "type" with
  | none => simp
  | some t =>
    dsimp only
    split
    next hc =>
      simp only [Bool.and_eq_true, Bool.or_eq_true, beq_iff_eq] at hc
      simp [hc.1, hc.2]
    next hc =>
      rw [Bool.not_eq_true, Bool.and_eq_false_iff] at hc
      constructor
      · intro h
        exact absurd h (by simp)
      · rintro ⟨⟨v, hv2, hv3⟩, hany, _⟩
        exfalso
        rw [Option.some_inj] at hv2
        subst hv2
        rcases hc with hc | hc
        · rcases hv3 with h | h <;> simp [h] at hc
        · rw [hc] at hany
          exact absurd hany (by simp)

/-- C2: with an always-succeeding assembler, `assemble_way` emits the
single closed-way area exactly when the way has at least 4 node refs,
present and bit-equal front and back locations, is not tagged area=no,
and has a filter-matched tag; when that condition fails, `assemble_way`
leaves the state unchanged for every assembler. -/
theorem assemble_way_invokes_iff (f : TagsFilter) (w : Way) (st : MState) :
    (MultipolygonManager.assemble_way probe_assembler f w st
        = .ok ⟨st.output ++ [way_area w], st.stats + one_area_stat⟩
      ↔ closed_way_assembly_condition f w = true)
    ∧ (closed_way_assembly_condition f w = false →
        ∀ asm, MultipolygonManager.assemble_way asm f w st = .ok st) := by
  unfold MultipolygonManager.assemble_way closed_way_assembly_condition
  by_cases hlen : w.nodes.length ≤ 3
  · have hd : ¬(4 ≤ w.nodes.length) := by omega
    simp [hlen, hd, mstate_ne_append]
  · have hd : 4 ≤ w.nodes.length := by omega
    cases hfl : front_location w with
    | none => simp [hlen, hfl, mstate_ne_append]
    | some lf =>
      cases hbl : back_location w with
      | none => simp [hlen, hfl, hbl, mstate_ne_append]
      | some lb =>
        by_cases heq : lf = lb
        · subst heq
          have hends : ends_have_same_location w = true := by
            simp [ends_have_same_location, hfl, hbl]
          by_cases hat : has_tag w.tags "area" "no"
          · simp [hlen, hfl, hbl, hends, hat, mstate_ne_append]
          · by_cases hma : match_any_of w.tags f
            · have hmn : match_none_of w.tags f = false := by
                simp only [match_any_of] at hma
                simp [match_none_of, hma]
              simp [hlen, hd, hfl, hbl, hends, hat, hma, hmn, probe_assembler,
                way_area]
            · have hany : w.tags.any f = false := by
                simpa [match_any_of] using hma
              have hmn : match_none_of w.tags f = true := by
                simp [match_none_of, hany]
              simp [hlen, hfl, hbl, hends, hat, match_any_of, hany, hmn,
                mstate_ne_append]
        · have hends : ends_have_same_location w = false := by
            simp [ends_have_same_location, hfl, hbl, heq]
          simp [hlen, hfl, hbl, hends, heq, mstate_ne_append]

/-- Witness for C2: the demo closed way is assembled into one area, and
the area=no way of scenario 3 leaves even a failing assembler
uninvoked. -/
theorem assemble_way_invokes_iff_witness :
    (MultipolygonManager.assemble_way probe_assembler true_filter demo_way
        ⟨[], area_stats.zero⟩
      = .ok ⟨[] ++ [way_area demo_way], area_stats.zero + one_area_stat⟩)
    ∧ MultipolygonManager.assemble_way invalid_location_assembler true_filter
        area_no_way ⟨[], area_stats.zero⟩ = .ok ⟨[], area_stats.zero⟩ :=
  ⟨(assemble_way_invokes_iff true_filter demo_way ⟨[], area_stats.zero⟩).1.mpr
      (by decide),
   (assemble_way_invokes_iff true_filter area_no_way ⟨[], area_stats.zero⟩).2
      (by decide) invalid_location_assembler⟩

/-- When the invocation condition fails, `assemble_way` returns the
state unchanged whatever the assembler is. -/
theorem assemble_way_not_invocable (asm : Assembler) (f : TagsFilter) (w : Way)
    (st : MState) (hc : closed_way_assembly_condition f w = false) :
    MultipolygonManager.assemble_way asm f w st = .ok st := by
  unfold MultipolygonManager.assemble_way
  unfold closed_way_assembly_condition at hc
  by_cases hlen : w.nodes.length ≤ 3
  · simp [hlen]
  · have hd : 4 ≤ w.nodes.length := by omega
    cases hfl : front_location w with
    | none => simp [hlen, hfl]
    | some lf =>
      cases hbl : back_location w with
      | none => simp [hlen, hfl, hbl]
      | some lb =>
        by_cases heq : lf = lb
        · subst heq
          have hends : ends_have_same_location w = true := by
            simp [ends_have_same_location, hfl, hbl]
          by_cases hat : has_tag w.tags "area" "no"
          · simp [hlen, hfl, hbl, hends, hat]
          · by_cases hma : match_any_of w.tags f
            · exfalso
              simp [hd, hfl, hbl, hat, hma] at hc
            · have hany : w.tags.any f = false := by
                simpa [match_any_of] using hma
              have hmn : match_none_of w.tags f = true := by
                simp [match_none_of, hany]
              simp [hlen, hfl, hbl, hends, hat, hmn]
        · have hends : ends_have_same_location w = false := by
            simp [ends_have_same_location, hfl, hbl, heq]
          simp [hlen, hfl, hbl, hends, heq]

/-- When the invocation condition holds, `assemble_way` is the assembler
run followed by the catch of `invalid_location`. -/
theorem assemble_way_invocable (asm : Assembler) (f : TagsFilter) (w : Way)
    (st : MState) (hc : closed_way_assembly_condition f w = true) :
    MultipolygonManager.assemble_way asm f w st =
      match asm.run_way w with
      | .ok (areas, s) => .ok ⟨st.output ++ areas, st.stats + s⟩
      | .error .invalid_location => .ok st
      | .error .other => .error .other := by
  unfold closed_way_assembly_condition at hc
  simp only [Bool.and_eq_true, decide_eq_true_eq, Bool.not_eq_true'] at hc
  obtain ⟨⟨⟨⟨⟨h4, hfs⟩, hbs⟩, heq⟩, hat⟩, hma⟩ := hc
  obtain ⟨lf, hfl⟩ := Option.isSome_iff_exists.mp hfs
  obtain ⟨lb, hbl⟩ := Option.isSome_iff_exists.mp hbs
  have hends : ends_have_same_location w = true := by
    simp [ends_have_same_location, heq]
  have hmn : match_none_of w.tags f = false := by
    simp only [match_any_of] at hma
    simp [match_none_of, hma]
  unfold MultipolygonManager.assemble_way
  have hlen : ¬(w.nodes.length ≤ 3) := by omega
  rw [if_neg hlen]
  simp only [hfl, hbl, Option.isNone_some, Bool.or_self, Bool.false_or,
    if_false, hends, if_true, hat, hmn]
  cases hr : asm.run_way w with
  | ok p => rfl
  | error e => cases e <;> simp

/-- Counterexample for C4: delivering the demo way completes the demo
relation and assembles the way itself; the relation area (id 15) is
emitted before the closed-way area (id 10), so the closed-way area does
not precede the relation area it completed. -/
theorem member_way_order_cex :
    (MultipolygonManager.member_way probe_assembler true_filter demo_way
        demo_pass2_init).map Pass2State.output
      = Except.ok [rel_area demo_relation, way_area demo_way]
    ∧ ¬(List.indexOf (way_area demo_way)
          [rel_area demo_relation, way_area demo_way]
        < List.indexOf (rel_area demo_relation)
          [rel_area demo_relation, way_area demo_way]) :=
  ⟨rfl, by decide⟩

/-- An `assemble_way` success only appends to the output. -/
theorem assemble_way_output_mono (asm : Assembler) (f : TagsFilter) (w : Way)
    (m m' : MState) (h : MultipolygonManager.assemble_way asm f w m = .ok m') :
    ∃ t, m'.output = m.output ++ t := by
  by_cases hc : closed_way_assembly_condition f w
  · rw [assemble_way_invocable asm f w m hc] at h
    cases hr : asm.run_way w with
    | ok p =>
      rw [hr] at h
      obtain ⟨areas, s⟩ := p
      refine ⟨areas, ?_⟩
      have h2 := Except.ok.inj h
      rw [← h2]
    | error e =>
      rw [hr] at h
      cases e with
      | invalid_location =>
        refine ⟨[], ?_⟩
        have h2 := Except.ok.inj h
        rw [← h2, List.append_nil]
      | other => simp at h
  · rw [Bool.not_eq_true] at hc
    rw [assemble_way_not_invocable asm f w m hc] at h
    refine ⟨[], ?_⟩
    have h2 := Except.ok.inj h
    rw [← h2, List.append_nil]

/-- A `complete_relation` success only appends to the output. -/
theorem complete_relation_output_mono (asm : Assembler) (db : MembersDatabase)
    (r : Relation) (m m' : MState)
    (h : MultipolygonManager.complete_relation asm db r m = .ok m') :
    ∃ t, m'.output = m.output ++ t := by
  unfold MultipolygonManager.complete_relation at h
  dsimp only at h
  cases hr : asm.run_rel r ((r.members.filter (fun mm => mm.ref != 0)).map
      (fun mm => db.getWay mm.ref)) with
  | ok p =>
    rw [hr] at h
    obtain ⟨areas, s⟩ := p
    refine ⟨areas, ?_⟩
    have h2 := Except.ok.inj h
    rw [← h2]
  | error e =>
    rw [hr] at h
    cases e with
    | invalid_location =>
      refine ⟨[], ?_⟩
      have h2 := Except.ok.inj h
      rw [← h2, List.append_nil]
    | other => simp at h

/-- An `on_complete` success only appends to the output. -/
theorem on_complete_output_mono (asm : Assembler) (hd : Nat)
    (st st' : Pass2State)
    (h : MultipolygonManager.on_complete asm hd st = .ok st') :
    ∃ t, st'.output = st.output ++ t := by
  unfold MultipolygonManager.on_complete at h
  rcases hget : st.relations.get? hd with _ | ⟨_ | rel⟩ <;>
    rw [hget] at h <;> dsimp only at h
  · refine ⟨[], ?_⟩
    have h2 := Except.ok.inj h
    rw [← h2, List.append_nil]
  · refine ⟨[], ?_⟩
    have h2 := Except.ok.inj h
    rw [← h2, List.append_nil]
  · cases hcr : MultipolygonManager.complete_relation asm st.db rel
        ⟨st.output, st.stats⟩ with
    | error e => rw [hcr] at h; simp at h
    | ok mm =>
      rw [hcr] at h
      obtain ⟨t, ht⟩ := complete_relation_output_mono asm st.db rel _ mm hcr
      refine ⟨t, ?_⟩
      have h2 := Except.ok.inj h
      rw [← h2]
      exact ht

/-- A run of completion callbacks only appends to the output. -/
theorem foldlM_on_complete_output_mono (asm : Assembler) :
    ∀ (l : List Nat) (s s' : Pass2State),
      l.foldlM (fun acc hd => MultipolygonManager.on_complete asm hd acc) s
          = .ok s' →
      ∃ t, s'.output = s.output ++ t := by
  intro l
  induction l with
  | nil =>
    intro s s' h
    simp only [List.foldlM_nil] at h
    refine ⟨[], ?_⟩
    have h2 := Except.ok.inj h
    rw [← h2, List.append_nil]
  | cons a l ih =>
    intro s s' h
    rw [List.foldlM_cons] at h
    cases hoc : MultipolygonManager.on_complete asm a s with
    | error e =>
      rw [hoc] at h
      exact absurd h (by simp [Bind.bind, Except.bind])
    | ok s1 =>
      rw [hoc] at h
      have h2 : l.foldlM (fun acc hd => MultipolygonManager.on_complete asm hd acc) s1
          = .ok s' := by
        simpa [Bind.bind, Except.bind] using h
      obtain ⟨t1, ht1⟩ := on_complete_output_mono asm a s s1 hoc
      obtain ⟨t2, ht2⟩ := ih s1 s' h2
      exact ⟨t1 ++ t2, by rw [ht2, ht1, List.append_assoc]⟩

/-- A `members_db_add` success only appends to the output. -/
theorem members_db_add_output_mono (asm : Assembler) (w : Way)
    (st st' : Pass2State)
    (h : MultipolygonManager.members_db_add asm w st = .ok st') :
    ∃ t, st'.output = st.output ++ t := by
  unfold MultipolygonManager.members_db_add at h
  by_cases hm : (st.db.interests.filter (fun i => i.way_id == w.id)).isEmpty
  · rw [if_pos hm] at h
    refine ⟨[], ?_⟩
    have h2 := Except.ok.inj h
    rw [← h2, List.append_nil]
  · rw [if_neg hm] at h
    have h3 := foldlM_on_complete_output_mono asm _ _ _ h
    simpa using h3

/-- C4 (amended): within one `member_way` step, the manager offers the
way to the members database first and assembles the closed way second,
so every relation area completed by the way is emitted before the
closed-way area of the way itself. -/
theorem member_way_relation_areas_first (asm : Assembler) (f : TagsFilter)
    (w : Way) (st st' : Pass2State)
    (h : MultipolygonManager.member_way asm f w st = .ok st') :
    ∃ st1 relAreas wayAreas,
      MultipolygonManager.members_db_add asm w st = .ok st1
      ∧ st1.output = st.output ++ relAreas
      ∧ st'.output = st.output ++ relAreas ++ wayAreas := by
  unfold MultipolygonManager.member_way at h
  cases hadd : MultipolygonManager.members_db_add asm w st with
  | error e => rw [hadd] at h; simp at h
  | ok st1 =>
    rw [hadd] at h
    dsimp only at h
    cases haw : MultipolygonManager.assemble_way asm f w ⟨st1.output, st1.stats⟩ with
    | error e => rw [haw] at h; simp at h
    | ok m =>
      rw [haw] at h
      dsimp only at h
      obtain ⟨t1, ht1⟩ := members_db_add_output_mono asm w st st1 hadd
      obtain ⟨t2, ht2⟩ := assemble_way_output_mono asm f w _ m haw
      refine ⟨st1, t1, t2, rfl, ht1, ?_⟩
      have h2 := Except.ok.inj h
      rw [← h2]
      dsimp only
      rw [ht2]
      dsimp only
      rw [ht1, List.append_assoc]

/-- Witness for C4 (amended): the decomposition at the demo scenario. -/
theorem member_way_relation_areas_first_witness :
    ∃ st1 relAreas wayAreas,
      MultipolygonManager.members_db_add probe_assembler demo_way
          demo_pass2_init = .ok st1
      ∧ st1.output = demo_pass2_init.output ++ relAreas
      ∧ demo_member_way_result.output
        = demo_pass2_init.output ++ relAreas ++ wayAreas :=
  member_way_relation_areas_first probe_assembler true_filter demo_way
    demo_pass2_init demo_member_way_result rfl

/-- Counterexample for C5: an `invalid_location` raised inside either
assembler call is swallowed with the whole state, statistics included,
unchanged; no failure counter is incremented (the source skips the
statistics update and its catch block is empty). -/
theorem invalid_location_stats_cex :
    MultipolygonManager.assemble_way invalid_location_assembler true_filter
        demo_way ⟨[], area_stats.zero⟩ = .ok ⟨[], area_stats.zero⟩
    ∧ MultipolygonManager.complete_relation invalid_location_assembler
        ⟨[], [(5, demo_way)]⟩ demo_relation ⟨[], area_stats.zero⟩
      = .ok ⟨[], area_stats.zero⟩
    ∧ invalid_location_assembler.run_way demo_way
      = .error AsmError.invalid_location :=
  ⟨rfl, rfl, rfl⟩

/-- C5 (amended): an `invalid_location` raised inside either assembler
call is caught; the object is skipped with output and statistics left
unchanged.  Any other error propagates out of `assemble_way` and
`complete_relation`, and those are the only errors they produce. -/
theorem invalid_location_swallowed (asm : Assembler) (f : TagsFilter) (w : Way)
    (r : Relation) (db : MembersDatabase) (st : MState) (e : AsmError) :
    (MultipolygonManager.assemble_way asm f w st = .error e
      ↔ (e = AsmError.other
         ∧ closed_way_assembly_condition f w = true
         ∧ asm.run_way w = .error AsmError.other))
    ∧ (asm.run_way w = .error AsmError.invalid_location →
        MultipolygonManager.assemble_way asm f w st = .ok st)
    ∧ (MultipolygonManager.complete_relation asm db r st = .error e
      ↔ (e = AsmError.other
         ∧ asm.run_rel r ((r.members.filter (fun m => m.ref != 0)).map
             (fun m => db.getWay m.ref)) = .error AsmError.other))
    ∧ (asm.run_rel r ((r.members.filter (fun m => m.ref != 0)).map
          (fun m => db.getWay m.ref)) = .error AsmError.invalid_location →
        MultipolygonManager.complete_relation asm db r st = .ok st) := by
  refine ⟨?_, ?_, ?_, ?_⟩
  · constructor
    · intro h
      by_cases hc : closed_way_assembly_condition f w
      · rw [assemble_way_invocable asm f w st hc] at h
        cases hr : asm.run_way w with
        | ok p => rw [hr] at h; simp at h
        | error e2 =>
          rw [hr] at h
          cases e2 with
          | invalid_location => simp at h
          | other =>
            simp only at h
            have he : AsmError.other = e := Except.error.inj h
            subst he
            exact ⟨rfl, hc, rfl⟩
      · rw [Bool.not_eq_true] at hc
        rw [assemble_way_not_invocable asm f w st hc] at h
        simp at h
    · rintro ⟨rfl, hc, hr⟩
      rw [assemble_way_invocable asm f w st hc, hr]
  · intro hr
    by_cases hc : closed_way_assembly_condition f w
    · rw [assemble_way_invocable asm f w st hc, hr]
    · rw [Bool.not_eq_true] at hc
      exact assemble_way_not_invocable asm f w st hc
  · unfold MultipolygonManager.complete_relation
    dsimp only
    cases hr : asm.run_rel r ((r.members.filter (fun m => m.ref != 0)).map
        (fun m => db.getWay m.ref)) with
    | ok p => simp
    | error e2 =>
      cases e2 with
      | invalid_location => simp
      | other =>
        simp only []
        constructor
        · intro h
          have he : AsmError.other = e := Except.error.inj h
          subst he
          exact ⟨rfl, trivial⟩
        · rintro ⟨rfl, _⟩
          rfl
  · intro hr
    unfold MultipolygonManager.complete_relation
    dsimp only
    rw [hr]

/-- Witness for C5 (amended): the always-failing assembler on the demo
way and on the demo relation leaves the state untouched. -/
theorem invalid_location_swallowed_witness :
    MultipolygonManager.assemble_way invalid_location_assembler true_filter
        demo_way ⟨[], area_stats.zero⟩ = .ok ⟨[], area_stats.zero⟩
    ∧ MultipolygonManager.complete_relation invalid_location_assembler
        ⟨[], [(5, demo_way)]⟩ demo_relation ⟨[], area_stats.zero⟩
      = .ok ⟨[], area_stats.zero⟩ :=
  ⟨(invalid_location_swallowed invalid_location_assembler true_filter demo_way
      demo_relation ⟨[], [(5, demo_way)]⟩ ⟨[], area_stats.zero⟩
      AsmError.other).2.1 rfl,
   (invalid_location_swallowed invalid_location_assembler true_filter demo_way
      demo_relation ⟨[], [(5, demo_way)]⟩ ⟨[], area_stats.zero⟩
      AsmError.other).2.2.2 rfl⟩

/-- One pass of the member loop of pass-1 `relation`, characterized:
the stored members are the zeroed map and the tracked interests are the
way members with their running slot indices. -/
theorem relation_fold (h : Nat) :
    ∀ (ms ms0 : List RelationMember) (is0 : List MemberInterest) (n0 : Nat),
      ms.foldl
        (fun (acc : List RelationMember × List MemberInterest × Nat) m =>
          if m.type == item_type.way then
            (acc.1 ++ [m], acc.2.1 ++ [⟨m.ref, h, acc.2.2⟩], acc.2.2 + 1)
          else
            (acc.1 ++ [{ m with ref := 0 }], acc.2.1, acc.2.2 + 1))
        (ms0, is0, n0)
      = (ms0 ++ ms.map (fun m =>
            if m.type == item_type.way then m else { m with ref := 0 }),
         is0 ++ (ms.enumFrom n0).filterMap (fun p =>
            if p.2.type == item_type.way then
              some ⟨p.2.ref, h, p.1⟩
            else none),
         n0 + ms.length) := by
  intro ms
  induction ms with
  | nil =>
    intro ms0 is0 n0
    simp
  | cons m ms ih =>
    intro ms0 is0 n0
    rw [List.foldl_cons]
    by_cases hm : m.type == item_type.way
    · simp only [hm, if_true, ih, List.map_cons, List.enumFrom_cons,
        List.filterMap_cons, List.length_cons, List.append_assoc,
        List.singleton_append, Prod.mk.injEq]
      refine ⟨?_, ?_, ?_⟩ <;> first | trivial | omega
    · simp only [Bool.not_eq_true] at hm
      simp only [hm, Bool.false_eq_true, if_false, ih, List.map_cons,
        List.enumFrom_cons, List.filterMap_cons, List.length_cons,
        List.append_assoc, List.singleton_append, Prod.mk.injEq]
      refine ⟨?_, ?_, ?_⟩ <;> first | trivial | omega

/-- C6: for a kept relation, pass-1 `relation` stores the relation with
every way member untouched and every other member id zeroed in place,
and registers one interest (member id, fresh handle, slot index) per way
member, in slot order. -/
theorem relation_pass1_spec (f : TagsFilter) (r : Relation)
    (st : MultipolygonManager.Pass1State)
    (hk : MultipolygonManager.keep_relation f r = true) :
    (MultipolygonManager.relation f r st).relations
      = st.relations ++ [{ r with members := r.members.map (fun m =>
          if m.type == item_type.way then m else { m with ref := 0 }) }]
    ∧ (MultipolygonManager.relation f r st).interests
      = st.interests ++ r.members.enum.filterMap (fun p =>
          if p.2.type == item_type.way then
            some ⟨p.2.ref, st.relations.length, p.1⟩
          else none) := by
  unfold MultipolygonManager.relation
  rw [if_pos hk]
  dsimp only
  rw [relation_fold st.relations.length r.members [] [] 0]
  constructor
  · simp
  · simp [List.enum]

/-- Witness for C6: the demo relation is stored unchanged (its only
member is a way) and one interest for way 5 at slot 0 is tracked. -/
theorem relation_pass1_spec_witness :
    (MultipolygonManager.relation true_filter demo_relation ⟨[], []⟩).relations
      = [demo_relation]
    ∧ (MultipolygonManager.relation true_filter demo_relation ⟨[], []⟩).interests
      = [⟨5, 0, 0⟩] :=
  relation_pass1_spec true_filter demo_relation ⟨[], []⟩ (by decide)

/-- The member walk of `remove_members`, characterized: it filters out
exactly the interests that match some non-zero member id together with
the relation id. -/
theorem remove_members_fold (rels : List (Option Relation)) (rid : Int) :
    ∀ (ms : List RelationMember) (db : MembersDatabase),
      ms.foldl
        (fun acc m =>
          if m.ref != 0 then acc.removeInterest rels m.ref rid else acc)
        db
      = ⟨db.interests.filter (fun i =>
           !(ms.any (fun m => m.ref != 0 && i.way_id == m.ref)
             && relation_id_of rels i.rel_handle == rid)),
         db.ways⟩ := by
  intro ms
  induction ms with
  | nil =>
    intro db
    simp
  | cons m ms ih =>
    intro db
    rw [List.foldl_cons]
    by_cases hm : m.ref != 0
    · rw [if_pos hm]
      rw [ih]
      unfold MembersDatabase.removeInterest
      dsimp only
      rw [List.filter_filter]
      congr 1
      apply List.filter_congr
      intro i _
      simp only [List.any_cons, hm, Bool.true_and]
      cases h1 : (i.way_id == m.ref) <;>
        cases h2 : (relation_id_of rels i.rel_handle == rid) <;>
        cases h3 : ms.any (fun mm => mm.ref != 0 && i.way_id == mm.ref) <;>
        rfl
    · rw [if_neg hm]
      rw [ih]
      have hpq : ∀ i ∈ db.interests,
          (!((ms.any fun mm => mm.ref != 0 && i.way_id == mm.ref)
             && relation_id_of rels i.rel_handle == rid))
          = (!(((m :: ms).any fun mm => mm.ref != 0 && i.way_id == mm.ref)
               && relation_id_of rels i.rel_handle == rid)) := by
        intro i _
        simp only [Bool.not_eq_true] at hm
        simp only [List.any_cons, hm, Bool.false_and, Bool.false_or]
      congr 1
      exact List.filter_congr hpq

/-- C7: when the relation behind a live handle completes, the completion
closure feeds the assembler the stashed payloads of the members with
non-zero id in slot order, appends the emitted areas and statistics,
removes every interest still registered against the relation, and
releases the handle. -/
theorem on_complete_spec (asm : Assembler) (h : Nat) (st : Pass2State)
    (rel : Relation) (as : List Area) (s : area_stats)
    (hrel : st.relations.get? h = some (some rel))
    (hasm : asm.run_rel rel ((rel.members.filter (fun m => m.ref != 0)).map
        (fun m => st.db.getWay m.ref)) = .ok (as, s)) :
    MultipolygonManager.on_complete asm h st
      = .ok ⟨st.relations.set h none,
             ⟨st.db.interests.filter (fun i =>
                !(rel.members.any (fun m => m.ref != 0 && i.way_id == m.ref)
                  && relation_id_of st.relations i.rel_handle == rel.id)),
              st.db.ways⟩,
             st.output ++ as, st.stats + s⟩ := by
  unfold MultipolygonManager.on_complete
  rw [hrel]
  unfold MultipolygonManager.complete_relation
  dsimp only
  rw [hasm]
  unfold MultipolygonManager.remove_members
  rw [remove_members_fold st.relations rel.id rel.members st.db]

/-- Witness for C7: completing the demo relation emits its area,
releases the handle and leaves no interests behind. -/
theorem on_complete_spec_witness :
    MultipolygonManager.on_complete probe_assembler 0 demo_completion_state
      = .ok ⟨[none], ⟨[], [(5, demo_way)]⟩, [rel_area demo_relation],
             area_stats.zero + one_area_stat⟩ :=
  on_complete_spec probe_assembler 0 demo_completion_state demo_relation
    [rel_area demo_relation] one_area_stat rfl rfl
